import Mathlib

/- Verification of the natural-language specification of the edward
   repository (src/edward/variationals.py and
   src/edward/inferences/wake_sleep.py) against a shallow embedding of
   the code.

   Conventions of the embedding:
   - TensorFlow random variables are identified by natural numbers (`Var`).
   - Graph construction is modelled symbolically: each `copy(...)` call is
     a `CopyEvent`, and each log-probability node accumulated into
     `p_log_prob[s]` / `q_log_prob[s]` is an `LPTerm` recording the scale
     multiplier used, the distribution copied, the scope of the copy, the
     substitution map passed to `copy`, the evaluation point, and whether
     the evaluation point is wrapped in `tf.stop_gradient`.
   - Numeric values of log-probability nodes are abstracted by a
     valuation `L : LPTerm -> Rat`; gradients by `g : Rat -> Var -> Option Rat`
     (`tf.gradients` returns one entry per requested variable, possibly
     `None`); `get_descendants` by `descend : Var -> List Var -> List Var`.
   - Python dicts are association lists where insertion prepends and
     lookup takes the first match (later insertions win).
   - Python `raise` is modelled by `Option`/`none`; Python sequence
     indexing follows standard Python/NumPy semantics (negative indices
     alias from the end; out-of-bounds raises). -/

namespace Edward

abbrev Var := Nat

/-- Scopes generated by `tf.get_default_graph().unique_name` inside one
`wake_sleep` call: one fresh q-sample scope and (in sleep phase) one fresh
p-sample scope per Monte Carlo sample `s`. -/
inductive Scope where
  | qSample : Nat → Scope
  | pSample : Nat → Scope
deriving DecidableEq

/-- Values bound in the substitution dictionaries: either a literal data
value or the `.value` of a scoped copy of a random variable. -/
inductive Val where
  | lit : ℚ → Val
  | rvValue : Var → Scope → Val
deriving DecidableEq

abbrev Dict := List (Var × Val)

/-- Dictionary lookup: first match wins (insertion prepends, so this is
Python dict semantics where later assignments override). -/
def dget (d : Dict) (k : Var) : Option Val :=
  (d.find? (fun p => p.1 == k)).map Prod.snd

/-- Dictionary assignment `d[k] = v`. -/
def dset (d : Dict) (k : Var) (v : Val) : Dict := (k, v) :: d

/-- Keys of the `data` argument: either a `RandomVariable` or some other
object (skipped by the `isinstance(x, RandomVariable)` tests). -/
inductive DataKey where
  | rv : Var → DataKey
  | plain : Nat → DataKey
deriving DecidableEq

/-- Values of the `data` argument: a `RandomVariable` observation model or
a literal value. -/
inductive DataVal where
  | rv : Var → DataVal
  | lit : ℚ → DataVal
deriving DecidableEq

abbrev ScaleMap := List (Var × ℚ)

/-- Python `scale.get(z, 1.0)`. -/
def scaleGet (m : ScaleMap) (v : Var) : ℚ :=
  ((m.find? (fun p => p.1 == v)).map Prod.snd).getD 1

/-- One accumulated node `tf.reduce_sum(scale_factor * copy.log_prob(arg))`:
`scale` is the multiplier used, `dist` the random variable whose copy
evaluates `log_prob`, `scope` the scope of that copy, `swap` the
substitution map passed to `copy` (`[]` when none was passed), `arg` the
result of the dictionary lookup producing the evaluation point, and
`stopped` records whether `tf.stop_gradient` wraps the evaluation point. -/
structure LPTerm where
  scale : ℚ
  dist : Var
  scope : Scope
  swap : Dict
  arg : Option Val
  stopped : Bool
deriving DecidableEq

/-- One call to `edward.util.copy`: the expression copied, the
substitution map passed (`[]` when none), and the scope. -/
structure CopyEvent where
  rv : Var
  swap : Dict
  scope : Scope
deriving DecidableEq

/-- Lines 84-91 of wake_sleep.py: build `dict_swap` from `data`, replacing
each random observed variable by a fresh q-sample-scoped copy of its
observation model (or by the literal observed value). -/
def dictSwapAux (s : Nat) : List (DataKey × DataVal) → Dict → Dict
  | [], d => d
  | (DataKey.rv x, DataVal.rv qx) :: rest, d =>
      dictSwapAux s rest (dset d x (Val.rvValue qx (Scope.qSample s)))
  | (DataKey.rv x, DataVal.lit c) :: rest, d =>
      dictSwapAux s rest (dset d x (Val.lit c))
  | (DataKey.plain _, _) :: rest, d => dictSwapAux s rest d

def dictSwap (data : List (DataKey × DataVal)) (s : Nat) : Dict :=
  dictSwapAux s data []

/-- Lines 94-103 of wake_sleep.py: the loop over `latent_vars` that copies
each `qz`, records `q_dict_swap[z] = qz_copy.value`, and, when
`phase_q != "sleep"`, accumulates
`scale.get(z, 1.0) * qz_copy.log_prob(tf.stop_gradient(q_dict_swap[z]))`
into `q_log_prob[s]`.  Returns the final dictionary and the accumulated
q-terms in accumulation order. -/
def qLoopAux (scale : ScaleMap) (phase : String) (s : Nat) :
    List (Var × Var) → Dict → Dict × List LPTerm
  | [], d => (d, [])
  | (z, qz) :: rest, d =>
      let d1 := dset d z (Val.rvValue qz (Scope.qSample s))
      let t : List LPTerm :=
        if phase ≠ "sleep" then
          [⟨scaleGet scale z, qz, Scope.qSample s, [], dget d1 z, true⟩]
        else []
      let r := qLoopAux scale phase s rest d1
      (r.1, t ++ r.2)

/-- The `q_dict_swap` dictionary after the loop of lines 94-103. -/
def q_dict_swap (latent : List (Var × Var)) (data : List (DataKey × DataVal))
    (scale : ScaleMap) (phase : String) (s : Nat) : Dict :=
  (qLoopAux scale phase s latent (dictSwap data s)).1

/-- Lines 105-114 of wake_sleep.py: terms accumulated into `p_log_prob[s]`:
for every latent z, `scale.get(z,1.0) * copy(z, q_dict_swap).log_prob(q_dict_swap[z])`,
then for every random observed x,
`scale.get(x,1.0) * copy(x, q_dict_swap).log_prob(q_dict_swap[x])`. -/
def pTermsSample (latent : List (Var × Var)) (data : List (DataKey × DataVal))
    (scale : ScaleMap) (phase : String) (s : Nat) : List LPTerm :=
  let qd := q_dict_swap latent data scale phase s
  (latent.map fun zqz =>
    ⟨scaleGet scale zqz.1, zqz.1, Scope.qSample s, qd, dget qd zqz.1, false⟩)
  ++ data.filterMap (fun kv =>
    match kv.1 with
    | DataKey.rv x =>
        some ⟨scaleGet scale x, x, Scope.qSample s, qd, dget qd x, false⟩
    | DataKey.plain _ => none)

/-- Lines 119-123 of wake_sleep.py: `p_dict_swap` starts from `dict_swap`
and records, for every pair (z, qz), `p_dict_swap[qz] = copy(z).value`
where the copy lives in the fresh p-sample scope. -/
def pDictSwapAux (s : Nat) : List (Var × Var) → Dict → Dict
  | [], d => d
  | (z, qz) :: rest, d =>
      pDictSwapAux s rest (dset d qz (Val.rvValue z (Scope.pSample s)))

def pDictSwap (latent : List (Var × Var)) (s : Nat) (d0 : Dict) : Dict :=
  pDictSwapAux s latent d0

/-- Lines 124-128 of wake_sleep.py: the sleep sub-phase accumulation into
`q_log_prob[s]`.  Note the scale key used by the code: `scale.get(z, 1.0)` where `z`
is the leftover loop variable from lines 120-123, i.e. the LAST latent key
of the iteration, not the key paired with the current `qz`. -/
def sleepTerms (latent : List (Var × Var)) (scale : ScaleMap) (s : Nat)
    (pd : Dict) : List LPTerm :=
  match latent.getLast? with
  | none => []
  | some zqzLast =>
      latent.map fun zqz =>
        ⟨scaleGet scale zqzLast.1, zqz.2, Scope.pSample s, pd,
         dget pd zqz.2, true⟩

/-- All terms accumulated into `q_log_prob[s]` for one sample `s`: the
wake-phase terms of lines 99-103 followed, when `phase_q == "sleep"`, by
the sleep sub-phase terms of lines 116-128. -/
def qTermsSample (latent : List (Var × Var)) (data : List (DataKey × DataVal))
    (scale : ScaleMap) (phase : String) (s : Nat) : List LPTerm :=
  let d0 := dictSwap data s
  let wt := (qLoopAux scale phase s latent d0).2
  if phase = "sleep" then
    wt ++ sleepTerms latent scale s (pDictSwap latent s d0)
  else wt

/-- All `edward.util.copy` calls made while constructing sample `s`, in
program order: observation-model copies, q-sample copies of each qz,
copies of each prior z conditioned on `q_dict_swap`, copies of each
observed x conditioned on `q_dict_swap`, and (sleep phase only) the
unconditioned prior copies of each z plus the p-sample copies of each qz
conditioned on `p_dict_swap`. -/
def copiesSample (latent : List (Var × Var)) (data : List (DataKey × DataVal))
    (scale : ScaleMap) (phase : String) (s : Nat) : List CopyEvent :=
  let qd := q_dict_swap latent data scale phase s
  let pd := pDictSwap latent s (dictSwap data s)
  (data.filterMap fun kv =>
    match kv with
    | (DataKey.rv _, DataVal.rv qx) => some ⟨qx, [], Scope.qSample s⟩
    | _ => none)
  ++ latent.map (fun zqz => ⟨zqz.2, [], Scope.qSample s⟩)
  ++ latent.map (fun zqz => ⟨zqz.1, qd, Scope.qSample s⟩)
  ++ (data.filterMap fun kv =>
    match kv.1 with
    | DataKey.rv x => some ⟨x, qd, Scope.qSample s⟩
    | DataKey.plain _ => none)
  ++ (if phase = "sleep" then
        latent.map (fun zqz => ⟨zqz.1, ([] : Dict), Scope.pSample s⟩)
        ++ latent.map (fun zqz => ⟨zqz.2, pd, Scope.pSample s⟩)
      else [])

/-- Numeric value of one per-sample accumulator (`p_log_prob[s]` or
`q_log_prob[s]`) under the abstract valuation `L` of log-probability
nodes: the accumulator starts at 0.0 and adds each node. -/
def sampleVal (L : LPTerm → ℚ) (ts : List LPTerm) : ℚ := (ts.map L).sum

/-- The Python list `p_log_prob` after the loop over `range(n_samples)`. -/
def p_log_prob (L : LPTerm → ℚ) (latent : List (Var × Var))
    (data : List (DataKey × DataVal)) (n : Nat) (phase : String)
    (scale : ScaleMap) : List ℚ :=
  (List.range n).map fun s => sampleVal L (pTermsSample latent data scale phase s)

/-- The Python list `q_log_prob` after the loop over `range(n_samples)`. -/
def q_log_prob (L : LPTerm → ℚ) (latent : List (Var × Var))
    (data : List (DataKey × DataVal)) (n : Nat) (phase : String)
    (scale : ScaleMap) : List ℚ :=
  (List.range n).map fun s => sampleVal L (qTermsSample latent data scale phase s)

/-- `tf.reduce_mean` of a list of scalars. -/
def tfReduceMean (xs : List ℚ) : ℚ := xs.sum / xs.length

/-- Line 132: `tf.reduce_sum(tf.losses.get_regularization_losses())`. -/
def reg_penalty (regLosses : List ℚ) : ℚ := regLosses.sum

/-- Line 142: `loss_p = -p_log_prob + reg_penalty`. -/
def loss_p (L : LPTerm → ℚ) (latent : List (Var × Var))
    (data : List (DataKey × DataVal)) (n : Nat) (phase : String)
    (scale : ScaleMap) (regLosses : List ℚ) : ℚ :=
  -(tfReduceMean (p_log_prob L latent data n phase scale)) + reg_penalty regLosses

/-- Line 143: `loss_q = -q_log_prob + reg_penalty`. -/
def loss_q (L : LPTerm → ℚ) (latent : List (Var × Var))
    (data : List (DataKey × DataVal)) (n : Nat) (phase : String)
    (scale : ScaleMap) (regLosses : List ℚ) : ℚ :=
  -(tfReduceMean (q_log_prob L latent data n phase scale)) + reg_penalty regLosses

/-- Line 145: `q_rvs = list(six.itervalues(latent_vars))`. -/
def q_rvs (latent : List (Var × Var)) : List Var := latent.map Prod.snd

/-- Lines 146-147: `q_vars = [v for v in var_list if
len(get_descendants(tf.convert_to_tensor(v), q_rvs)) != 0]`, with
`get_descendants` abstracted by `descend`. -/
def q_vars (descend : Var → List Var → List Var) (latent : List (Var × Var))
    (var_list : List Var) : List Var :=
  var_list.filter fun v => (descend v (q_rvs latent)).length != 0

/-- Line 149: `p_vars = [v for v in var_list if v not in q_vars]`. -/
def p_vars (descend : Var → List Var → List Var) (latent : List (Var × Var))
    (var_list : List Var) : List Var :=
  var_list.filter fun v => decide (v ∉ q_vars descend latent var_list)

/-- Lines 142-152 of wake_sleep.py assembled: returns
`(loss_p, list(zip(q_grads, q_vars)) + list(zip(p_grads, p_vars)))`, with
`tf.gradients(loss, vs)` modelled as one abstract gradient entry
`g loss v` per requested variable (possibly `none` for a disconnected
variable). -/
def wake_sleep (L : LPTerm → ℚ) (g : ℚ → Var → Option ℚ)
    (descend : Var → List Var → List Var) (latent : List (Var × Var))
    (data : List (DataKey × DataVal)) (n : Nat) (phase : String)
    (scale : ScaleMap) (var_list : List Var) (regLosses : List ℚ) :
    ℚ × List (Option ℚ × Var) :=
  let lp := loss_p L latent data n phase scale regLosses
  let lq := loss_q L latent data n phase scale regLosses
  let qv := q_vars descend latent var_list
  let q_grads := qv.map (g lq)
  let pv := p_vars descend latent var_list
  let p_grads := pv.map (g lp)
  (lp, q_grads.zip qv ++ p_grads.zip pv)

/- -------- variationals.py -------- -/

/-- Standard Python/NumPy index resolution for a sequence of length `n`:
nonnegative indices below `n` are used directly, negative indices not
below `-n` alias from the end, everything else raises. -/
def pyIndex (n : Nat) (i : ℤ) : Option Nat :=
  if 0 ≤ i ∧ i < (n : ℤ) then some i.toNat
  else if -(n : ℤ) ≤ i ∧ i < 0 then some (i + n).toNat
  else none

/-- MFBernoulli.log_prob_zi (variationals.py lines 291-296): raise when
`i >= num_vars`, otherwise `bernoulli.logpmf(z[:, i], self.p[i])`, with
the density value at resolved column `j` abstracted as `lp j`. -/
def MFBernoulli.log_prob_zi (num_vars : Nat) (lp : Nat → ℚ) (i : ℤ) : Option ℚ :=
  if (num_vars : ℤ) ≤ i then none else (pyIndex num_vars i).map lp

/-- MFGaussian.log_prob_zi (variationals.py lines 383-391): raise when
`i >= num_vars`, otherwise the concatenated `norm.logpdf(zm[i], m[i], s[i])`
values, abstracted as `lp j` at resolved column `j`. -/
def MFGaussian.log_prob_zi (num_vars : Nat) (lp : Nat → ℚ) (i : ℤ) : Option ℚ :=
  if (num_vars : ℤ) ≤ i then none else (pyIndex num_vars i).map lp

/-- MFDirichlet.log_prob_zi (variationals.py lines 202-209). -/
def MFDirichlet.log_prob_zi (num_vars : Nat) (lp : Nat → ℚ) (i : ℤ) : Option ℚ :=
  if (num_vars : ℤ) ≤ i then none else (pyIndex num_vars i).map lp

/-- MFInvGamma.log_prob_zi (variationals.py lines 244-252). -/
def MFInvGamma.log_prob_zi (num_vars : Nat) (lp : Nat → ℚ) (i : ℤ) : Option ℚ :=
  if (num_vars : ℤ) ≤ i then none else (pyIndex num_vars i).map lp

/-- MFMixGaussian `num_vars` (variationals.py lines 126-135):
`dirich = MFDirichlet(K, K)`, `gauss = MFGaussian(K*D)`,
`invgam = MFInvGamma(K*D)`, summed. -/
def MFMixGaussian.num_vars (K D : Nat) : Nat := K + K * D + K * D

/-- MFMixGaussian.log_prob_zi (variationals.py lines 158-174): start from
`log_prob = 0`, add each sub-family contribution guarded by
`i < subfamily.num_vars` (each sub-call may itself raise), and finally
raise when `i >= self.num_vars`.  The per-column density values of the
three sub-families are abstracted as `fd`, `fg`, `fv`. -/
def MFMixGaussian.log_prob_zi (K D : Nat) (fd fg fv : Nat → ℚ) (i : ℤ) :
    Option ℚ :=
  (if i < (K : ℤ) then (MFDirichlet.log_prob_zi K fd i).map (fun t => 0 + t)
   else some 0).bind fun l1 =>
  (if i < ((K * D : Nat) : ℤ) then
      (MFGaussian.log_prob_zi (K * D) fg i).map (fun t => l1 + t)
   else some l1).bind fun l2 =>
  (if i < ((K * D : Nat) : ℤ) then
      (MFInvGamma.log_prob_zi (K * D) fv i).map (fun t => l2 + t)
   else some l2).bind fun l3 =>
  if ((MFMixGaussian.num_vars K D : Nat) : ℤ) ≤ i then none else some l3

/-- MFBernoulli.set_params (variationals.py lines 267-275): store
`params[0]` (raising when `params` is empty); when its first dimension `d`
exceeds 1, replace it by the first `d-1` coordinates concatenated with
`1.0 - reduce_sum` of those coordinates. -/
def MFBernoulli.set_params (params : List (List ℚ)) : Option (List ℚ) :=
  match params with
  | [] => none
  | p :: _ =>
      let d := p.length
      some (if 1 < d then
              p.take (d - 1) ++ [1 - (p.take (d - 1)).sum]
            else p)

/-- MFGaussian.reparam (variationals.py lines 376-381):
`self.m + eps * self.s` with TensorFlow broadcasting of the parameter
vectors `m`, `s` across the rows of `eps`. -/
def MFGaussian.reparam (m s : List ℚ) (eps : List (List ℚ)) : List (List ℚ) :=
  eps.map fun row =>
    List.zipWith (fun mj es => mj + es) m (List.zipWith (fun ej sj => ej * sj) row s)

/-- Likelihood.sample (variationals.py lines 94-116): the base-class
default composes `reparam` with `sample_noise`. -/
def Likelihood.sample (sample_noise : Nat × Nat → List (List ℚ))
    (reparam : List (List ℚ) → List (List ℚ)) (size : Nat × Nat) :
    List (List ℚ) :=
  reparam (sample_noise size)

/-- MFGaussian inherits `sample` from `Likelihood` unmodified (it defines
no `sample` of its own), with its `sample_noise` drawing external standard
normal noise (abstracted as `noise`). -/
def MFGaussian.sample (m s : List ℚ) (noise : Nat × Nat → List (List ℚ))
    (size : Nat × Nat) : List (List ℚ) :=
  Likelihood.sample noise (MFGaussian.reparam m s) size

/- -------- helper lemmas -------- -/

lemma dget_dset_self (d : Dict) (k : Var) (v : Val) :
    dget (dset d k v) k = some v := by
  unfold dget dset
  rw [List.find?_cons_of_pos _ (by simp)]
  rfl

lemma dget_dset_ne (d : Dict) (k k2 : Var) (v : Val) (h : k ≠ k2) :
    dget (dset d k2 v) k = dget d k := by
  unfold dget dset
  rw [List.find?_cons_of_neg _ (by simp [Ne.symm h])]

lemma dget_pDictSwapAux_skip (s : Nat) :
    ∀ (latent : List (Var × Var)) (d : Dict) (k : Var),
      k ∉ latent.map Prod.snd → dget (pDictSwapAux s latent d) k = dget d k := by
  intro latent
  induction latent with
  | nil => intro d k _; rfl
  | cons a rest ih =>
      intro d k h
      obtain ⟨z1, qz1⟩ := a
      simp only [List.map_cons, List.mem_cons] at h
      push_neg at h
      simp only [pDictSwapAux]
      rw [ih _ k h.2, dget_dset_ne _ _ _ _ h.1]

lemma dget_pDictSwap (s : Nat) (z qz : Var) :
    ∀ (latent : List (Var × Var)) (d0 : Dict),
      (latent.map Prod.snd).Nodup → (z, qz) ∈ latent →
      dget (pDictSwap latent s d0) qz = some (Val.rvValue z (Scope.pSample s)) := by
  intro latent
  induction latent with
  | nil => intro d0 _ hm; cases hm
  | cons a rest ih =>
      intro d0 hnd hm
      obtain ⟨z1, qz1⟩ := a
      simp only [List.map_cons, List.nodup_cons] at hnd
      simp only [pDictSwap, pDictSwapAux]
      rcases List.mem_cons.mp hm with heq | hmem
      · cases heq
        rw [dget_pDictSwapAux_skip s rest _ qz hnd.1, dget_dset_self]
      · exact ih _ hnd.2 hmem

lemma qLoopAux_terms_not_sleep (scale : ScaleMap) (phase : String) (s : Nat)
    (h : phase ≠ "sleep") :
    ∀ (latent : List (Var × Var)) (d : Dict),
      (qLoopAux scale phase s latent d).2
        = latent.map (fun zqz =>
            ⟨scaleGet scale zqz.1, zqz.2, Scope.qSample s, [],
             some (Val.rvValue zqz.2 (Scope.qSample s)), true⟩) := by
  intro latent
  induction latent with
  | nil => intro d; rfl
  | cons a rest ih =>
      intro d
      obtain ⟨z, qz⟩ := a
      simp only [qLoopAux, List.map_cons]
      rw [if_pos h, ih, dget_dset_self]
      rfl

lemma qLoopAux_terms_sleep (scale : ScaleMap) (s : Nat) :
    ∀ (latent : List (Var × Var)) (d : Dict),
      (qLoopAux scale "sleep" s latent d).2 = [] := by
  intro latent
  induction latent with
  | nil => intro d; rfl
  | cons a rest ih =>
      intro d
      obtain ⟨z, qz⟩ := a
      simp only [qLoopAux]
      rw [if_neg (by simp)]
      simpa using ih _

lemma qLoopAux_phase (scale : ScaleMap) (phase : String) (s : Nat)
    (h : phase ≠ "sleep") :
    ∀ (latent : List (Var × Var)) (d : Dict),
      qLoopAux scale phase s latent d = qLoopAux scale "wake" s latent d := by
  intro latent
  induction latent with
  | nil => intro d; rfl
  | cons a rest ih =>
      intro d
      obtain ⟨z, qz⟩ := a
      simp only [qLoopAux]
      rw [if_pos h, if_pos (by decide : ("wake" : String) ≠ "sleep"), ih]

lemma map_snd_zip_map {α β : Type} (f : α → β) :
    ∀ l : List α, ((l.map f).zip l).map Prod.snd = l := by
  intro l
  induction l with
  | nil => rfl
  | cons a t ih => simp [ih]

lemma map_fst_zip_map {α β : Type} (f : α → β) :
    ∀ l : List α, ((l.map f).zip l).map Prod.fst = l.map f := by
  intro l
  induction l with
  | nil => rfl
  | cons a t ih => simp [ih]

lemma getD_map_lt (f : List ℚ → List ℚ) :
    ∀ (l : List (List ℚ)) (i : Nat), i < l.length →
      (l.map f).getD i [] = f (l.getD i []) := by
  intro l
  induction l with
  | nil => intro i h; exact absurd h (Nat.not_lt_zero i)
  | cons a t ih =>
      intro i h
      cases i with
      | zero => rfl
      | succ j => exact ih j (Nat.lt_of_succ_lt_succ h)

lemma getD_zipWith_lt (f : ℚ → ℚ → ℚ) :
    ∀ (as bs : List ℚ) (j : Nat), j < as.length → j < bs.length →
      (List.zipWith f as bs).getD j 0 = f (as.getD j 0) (bs.getD j 0) := by
  intro as
  induction as with
  | nil => intro bs j h1 _; exact absurd h1 (Nat.not_lt_zero j)
  | cons a t ih =>
      intro bs j h1 h2
      cases bs with
      | nil => exact absurd h2 (Nat.not_lt_zero j)
      | cons b tb =>
          cases j with
          | zero => rfl
          | succ k =>
              exact ih tb k (Nat.lt_of_succ_lt_succ h1) (Nat.lt_of_succ_lt_succ h2)

lemma dirich_lpz_in (n : Nat) (f : Nat → ℚ) (i : ℤ) (h0 : 0 ≤ i)
    (h1 : i < (n : ℤ)) : MFDirichlet.log_prob_zi n f i = some (f i.toNat) := by
  unfold MFDirichlet.log_prob_zi pyIndex
  rw [if_neg (by omega), if_pos ⟨h0, h1⟩]
  rfl

lemma gauss_lpz_in (n : Nat) (f : Nat → ℚ) (i : ℤ) (h0 : 0 ≤ i)
    (h1 : i < (n : ℤ)) : MFGaussian.log_prob_zi n f i = some (f i.toNat) := by
  unfold MFGaussian.log_prob_zi pyIndex
  rw [if_neg (by omega), if_pos ⟨h0, h1⟩]
  rfl

lemma invgam_lpz_in (n : Nat) (f : Nat → ℚ) (i : ℤ) (h0 : 0 ≤ i)
    (h1 : i < (n : ℤ)) : MFInvGamma.log_prob_zi n f i = some (f i.toNat) := by
  unfold MFInvGamma.log_prob_zi pyIndex
  rw [if_neg (by omega), if_pos ⟨h0, h1⟩]
  rfl

lemma qTermsSample_phase (latent : List (Var × Var))
    (data : List (DataKey × DataVal)) (scale : ScaleMap) (phase : String)
    (s : Nat) (h : phase ≠ "sleep") :
    qTermsSample latent data scale phase s
      = qTermsSample latent data scale "wake" s := by
  unfold qTermsSample
  rw [if_neg h, if_neg (by decide : ¬ ("wake" : String) = "sleep"),
      qLoopAux_phase scale phase s h]

lemma q_dict_swap_phase (latent : List (Var × Var))
    (data : List (DataKey × DataVal)) (scale : ScaleMap) (phase : String)
    (s : Nat) (h : phase ≠ "sleep") :
    q_dict_swap latent data scale phase s
      = q_dict_swap latent data scale "wake" s := by
  unfold q_dict_swap
  rw [qLoopAux_phase scale phase s h]

lemma pTermsSample_phase (latent : List (Var × Var))
    (data : List (DataKey × DataVal)) (scale : ScaleMap) (phase : String)
    (s : Nat) (h : phase ≠ "sleep") :
    pTermsSample latent data scale phase s
      = pTermsSample latent data scale "wake" s := by
  unfold pTermsSample
  rw [q_dict_swap_phase latent data scale phase s h]

lemma copiesSample_phase (latent : List (Var × Var))
    (data : List (DataKey × DataVal)) (scale : ScaleMap) (phase : String)
    (s : Nat) (h : phase ≠ "sleep") :
    copiesSample latent data scale phase s
      = copiesSample latent data scale "wake" s := by
  simp only [copiesSample, q_dict_swap_phase latent data scale phase s h,
    if_neg h, if_neg (by decide : ¬ ("wake" : String) = "sleep")]

lemma loss_p_phase (L : LPTerm → ℚ) (latent : List (Var × Var))
    (data : List (DataKey × DataVal)) (n : Nat) (phase : String)
    (scale : ScaleMap) (regLosses : List ℚ) (h : phase ≠ "sleep") :
    loss_p L latent data n phase scale regLosses
      = loss_p L latent data n "wake" scale regLosses := by
  unfold loss_p p_log_prob
  rw [List.map_congr_left (fun s _ => by
    rw [pTermsSample_phase latent data scale phase s h])]

lemma loss_q_phase (L : LPTerm → ℚ) (latent : List (Var × Var))
    (data : List (DataKey × DataVal)) (n : Nat) (phase : String)
    (scale : ScaleMap) (regLosses : List ℚ) (h : phase ≠ "sleep") :
    loss_q L latent data n phase scale regLosses
      = loss_q L latent data n "wake" scale regLosses := by
  unfold loss_q q_log_prob
  rw [List.map_congr_left (fun s _ => by
    rw [qTermsSample_phase latent data scale phase s h])]

/- -------- claim theorems: variationals.py -------- -/

/-- C5: For the Gaussian family, `sample` is the base-class composition
`reparam(sample_noise(size))` inherited unmodified, and for every fixed
noise array `eps`, `reparam(eps)` equals `location + eps * scale`
elementwise exactly. -/
theorem mfgaussian_reparam_sample (m s : List ℚ)
    (noise : Nat × Nat → List (List ℚ)) (size : Nat × Nat)
    (eps : List (List ℚ)) (i j : Nat)
    (hi : i < eps.length) (hj : j < m.length) (hs : s.length = m.length)
    (hrow : (eps.getD i []).length = m.length) :
    MFGaussian.sample m s noise size = MFGaussian.reparam m s (noise size)
    ∧ ((MFGaussian.reparam m s eps).getD i []).getD j 0
        = m.getD j 0 + (eps.getD i []).getD j 0 * s.getD j 0 := by
  constructor
  · rfl
  · unfold MFGaussian.reparam
    rw [getD_map_lt _ eps i hi]
    rw [getD_zipWith_lt _ m _ j hj (by rw [List.length_zipWith]; omega)]
    rw [getD_zipWith_lt _ _ s j (by omega) (by omega)]

/-- Witness for C5 at a concrete input. -/
theorem mfgaussian_reparam_sample_witness :
    MFGaussian.sample [1, 2] [3, 4] (fun _ => [[0, 0]]) (1, 2)
        = MFGaussian.reparam [1, 2] [3, 4] ((fun _ => [[0, 0]]) ((1 : Nat), (2 : Nat)))
    ∧ ((MFGaussian.reparam [1, 2] [3, 4] [[5, 6]]).getD 0 []).getD 0 0
        = ([(1 : ℚ), 2].getD 0 0)
          + (([[(5 : ℚ), 6]].getD 0 []).getD 0 0) * ([(3 : ℚ), 4].getD 0 0) :=
  mfgaussian_reparam_sample [1, 2] [3, 4] (fun _ => [[0, 0]]) (1, 2) [[5, 6]]
    0 0 (by decide) (by decide) (by decide) (by decide)

/-- C6: For the Bernoulli family with more than one variable, after
`set_params` the stored probability vector ends in one minus the sum of
its first `d-1` coordinates, so all `d` coordinates sum to exactly 1. -/
theorem mfbernoulli_simplex (p : List ℚ) (ps : List (List ℚ))
    (h : 1 < p.length) :
    ∃ q : List ℚ, MFBernoulli.set_params (p :: ps) = some q
      ∧ q.getLast? = some (1 - (p.take (p.length - 1)).sum)
      ∧ q.sum = 1 := by
  refine ⟨p.take (p.length - 1) ++ [1 - (p.take (p.length - 1)).sum], ?_, ?_, ?_⟩
  · simp only [MFBernoulli.set_params, if_pos h]
  · rw [List.getLast?_concat]
  · rw [List.sum_append, List.sum_cons, List.sum_nil]
    ring

/-- Witness for C6 at a concrete input. -/
theorem mfbernoulli_simplex_witness :
    1 < [(1 : ℚ)/2, 1/3, 1/8].length
    ∧ ∃ q : List ℚ, MFBernoulli.set_params ([(1 : ℚ)/2, 1/3, 1/8] :: []) = some q
        ∧ q.getLast? = some (1 - (([(1 : ℚ)/2, 1/3, 1/8].take ([(1 : ℚ)/2, 1/3, 1/8].length - 1)).sum))
        ∧ q.sum = 1 :=
  ⟨by decide, mfbernoulli_simplex [(1 : ℚ)/2, 1/3, 1/8] [] (by decide)⟩

/-- C10: For the Bernoulli family with a single variable, `set_params`
stores `params[0]` unchanged: the simplex constraint applies only when the
first dimension exceeds 1. -/
theorem mfbernoulli_single (p : List ℚ) (ps : List (List ℚ))
    (h : p.length = 1) : MFBernoulli.set_params (p :: ps) = some p := by
  simp only [MFBernoulli.set_params, h]
  rw [if_neg (by omega)]

/-- Witness for C10 at a concrete input. -/
theorem mfbernoulli_single_witness :
    [(3 : ℚ)/4].length = 1
    ∧ MFBernoulli.set_params ([(3 : ℚ)/4] :: []) = some [(3 : ℚ)/4] :=
  ⟨by decide, mfbernoulli_single [(3 : ℚ)/4] [] (by decide)⟩

/-- C8 counterexample: the claim says `log_prob_zi` raises for every
`i < 0`, but for `i = -1` the guard of the Bernoulli family (`i >= num_vars`)
does not fire and the negative index aliases Python-style, returning the
value of the last coordinate instead of raising. -/
theorem mfbernoulli_negative_index_returns :
    MFBernoulli.log_prob_zi 2 (fun j => (j : ℚ)) (-1) ≠ none := by decide

/-- C8 amended: `log_prob_zi` raises exactly when `i >= num_vars` or
`i < -num_vars`; negative indices not below `-num_vars` alias from the end
without raising, and every `i` in `[0, num_vars)` returns a value. -/
theorem log_prob_zi_index_ranges (n : Nat) (lp : Nat → ℚ) (i : ℤ) :
    (MFBernoulli.log_prob_zi n lp i = none ↔ ((n : ℤ) ≤ i ∨ i < -(n : ℤ)))
    ∧ (MFGaussian.log_prob_zi n lp i = none ↔ ((n : ℤ) ≤ i ∨ i < -(n : ℤ)))
    ∧ (0 ≤ i → i < (n : ℤ) →
        MFBernoulli.log_prob_zi n lp i = some (lp i.toNat)
        ∧ MFGaussian.log_prob_zi n lp i = some (lp i.toNat)) := by
  unfold MFBernoulli.log_prob_zi MFGaussian.log_prob_zi pyIndex
  refine ⟨?_, ?_, ?_⟩ <;> split_ifs <;> simp <;> omega

/-- Witness for the amended C8 at a concrete input. -/
theorem log_prob_zi_index_ranges_witness :
    (MFBernoulli.log_prob_zi 2 (fun j => (j : ℚ)) 0 = none
        ↔ (((2 : Nat) : ℤ) ≤ 0 ∨ (0 : ℤ) < -((2 : Nat) : ℤ)))
    ∧ (MFGaussian.log_prob_zi 2 (fun j => (j : ℚ)) 0 = none
        ↔ (((2 : Nat) : ℤ) ≤ 0 ∨ (0 : ℤ) < -((2 : Nat) : ℤ)))
    ∧ ((0 : ℤ) ≤ 0 → (0 : ℤ) < ((2 : Nat) : ℤ) →
        MFBernoulli.log_prob_zi 2 (fun j => (j : ℚ)) 0 = some ((0 : ℤ).toNat)
        ∧ MFGaussian.log_prob_zi 2 (fun j => (j : ℚ)) 0 = some ((0 : ℤ).toNat)) :=
  log_prob_zi_index_ranges 2 (fun j => (j : ℚ)) 0

/-- C7: For the Mixed family, `log_prob_zi(i, z)` with `0 <= i` sums the
contributions of every sub-family whose own zero-based range contains `i`
(the contributions overlap rather than partitioning the index range), and
raises for `i >= num_vars`. -/
theorem mfmix_log_prob_zi (K D : Nat) (fd fg fv : Nat → ℚ) (i : ℤ)
    (h0 : 0 ≤ i) :
    MFMixGaussian.log_prob_zi K D fd fg fv i
      = if i < ((MFMixGaussian.num_vars K D : Nat) : ℤ) then
          some ((if i < (K : ℤ) then fd i.toNat else 0)
            + (if i < ((K * D : Nat) : ℤ) then fg i.toNat else 0)
            + (if i < ((K * D : Nat) : ℤ) then fv i.toNat else 0))
        else none := by
  obtain ⟨M, hM⟩ : ∃ M, K * D = M := ⟨_, rfl⟩
  have hnum : MFMixGaussian.num_vars K D = K + M + M := by
    unfold MFMixGaussian.num_vars
    rw [hM]
  unfold MFMixGaussian.log_prob_zi
  rw [hM, hnum]
  push_cast
  by_cases hnv : i < (K : ℤ) + M + M
  · by_cases hiK : i < (K : ℤ) <;> by_cases hiM : i < (M : ℤ)
    · simp [hiK, hiM, hnv, not_le.mpr hnv, dirich_lpz_in K fd i h0 hiK,
        gauss_lpz_in M fg i h0 hiM, invgam_lpz_in M fv i h0 hiM]
    · simp [hiK, hiM, hnv, not_le.mpr hnv, dirich_lpz_in K fd i h0 hiK]
    · simp [hiK, hiM, hnv, not_le.mpr hnv, gauss_lpz_in M fg i h0 hiM,
        invgam_lpz_in M fv i h0 hiM]
    · simp [hiK, hiM, hnv, not_le.mpr hnv]
  · simp [show ¬ i < (K : ℤ) by omega, show ¬ i < (M : ℤ) by omega,
      hnv, not_lt.mp hnv]

/-- Witness for C7 at a concrete input. -/
theorem mfmix_log_prob_zi_witness :
    (0 : ℤ) ≤ 2
    ∧ MFMixGaussian.log_prob_zi 1 1 (fun _ => (5 : ℚ)) (fun _ => 7) (fun _ => 9) 2
      = if (2 : ℤ) < ((MFMixGaussian.num_vars 1 1 : Nat) : ℤ) then
          some ((if (2 : ℤ) < ((1 : Nat) : ℤ) then (5 : ℚ) else 0)
            + (if (2 : ℤ) < ((1 * 1 : Nat) : ℤ) then (7 : ℚ) else 0)
            + (if (2 : ℤ) < ((1 * 1 : Nat) : ℤ) then (9 : ℚ) else 0))
        else none :=
  ⟨by decide, mfmix_log_prob_zi 1 1 (fun _ => (5 : ℚ)) (fun _ => 7) (fun _ => 9) 2 (by decide)⟩

/- -------- claim theorems: wake_sleep.py -------- -/

/-- C1: wake_sleep returns loss_p together with a list of (gradient,
variable) pairs whose variables are exactly q_vars (variables whose
descendant set among the q random variables is non-empty) followed by
p_vars (the set difference); for a duplicate-free var_list the two blocks
are mutually exclusive and together cover var_list, each variable
appearing exactly once. -/
theorem wake_sleep_grads_partition (L : LPTerm → ℚ) (g : ℚ → Var → Option ℚ)
    (descend : Var → List Var → List Var) (latent : List (Var × Var))
    (data : List (DataKey × DataVal)) (n : Nat) (phase : String)
    (scale : ScaleMap) (var_list : List Var) (regLosses : List ℚ)
    (hnd : var_list.Nodup) :
    ((wake_sleep L g descend latent data n phase scale var_list regLosses).2.map Prod.snd
        = q_vars descend latent var_list ++ p_vars descend latent var_list)
    ∧ (∀ v ∈ var_list,
        (q_vars descend latent var_list ++ p_vars descend latent var_list).count v = 1)
    ∧ (∀ v, v ∈ q_vars descend latent var_list ++ p_vars descend latent var_list →
        v ∈ var_list)
    ∧ (∀ v, ¬ (v ∈ q_vars descend latent var_list ∧ v ∈ p_vars descend latent var_list))
    ∧ (wake_sleep L g descend latent data n phase scale var_list regLosses).1
        = loss_p L latent data n phase scale regLosses := by
  have hqnd : (q_vars descend latent var_list).Nodup := hnd.filter _
  have hpnd : (p_vars descend latent var_list).Nodup := hnd.filter _
  have hdisj : ∀ v, v ∈ p_vars descend latent var_list →
      v ∉ q_vars descend latent var_list := by
    intro v hv
    exact of_decide_eq_true (List.mem_filter.mp hv).2
  refine ⟨?_, ?_, ?_, ?_, rfl⟩
  · simp only [wake_sleep]
    rw [List.map_append, map_snd_zip_map, map_snd_zip_map]
  · intro v hv
    rw [List.count_append]
    by_cases hP : ((descend v (q_rvs latent)).length != 0) = true
    · have hq : v ∈ q_vars descend latent var_list := List.mem_filter.mpr ⟨hv, hP⟩
      have hp : v ∉ p_vars descend latent var_list := fun hp => hdisj v hp hq
      rw [List.count_eq_one_of_mem hqnd hq, List.count_eq_zero.mpr hp]
    · have hq : v ∉ q_vars descend latent var_list := by
        intro hq
        exact hP (List.mem_filter.mp hq).2
      have hp : v ∈ p_vars descend latent var_list :=
        List.mem_filter.mpr ⟨hv, decide_eq_true hq⟩
      rw [List.count_eq_zero.mpr hq, List.count_eq_one_of_mem hpnd hp]
  · intro v hv
    rcases List.mem_append.mp hv with h | h
    · exact (List.mem_filter.mp h).1
    · exact (List.mem_filter.mp h).1
  · intro v hvv
    exact hdisj v hvv.2 hvv.1

/-- Witness for C1 at a concrete input. -/
theorem wake_sleep_grads_partition_witness :
    ([0, 1] : List Var).Nodup
    ∧ (((wake_sleep (fun _ => (0 : ℚ)) (fun _ _ => none)
          (fun v _ => if v = 0 then [7] else []) [(5, 10)] [] 1 "sleep" [] [0, 1] []).2.map Prod.snd
        = q_vars (fun v _ => if v = 0 then [7] else []) [(5, 10)] [0, 1]
          ++ p_vars (fun v _ => if v = 0 then [7] else []) [(5, 10)] [0, 1])
      ∧ (∀ v ∈ ([0, 1] : List Var),
          (q_vars (fun v _ => if v = 0 then [7] else []) [(5, 10)] [0, 1]
            ++ p_vars (fun v _ => if v = 0 then [7] else []) [(5, 10)] [0, 1]).count v = 1)
      ∧ (∀ v, v ∈ q_vars (fun v _ => if v = 0 then [7] else []) [(5, 10)] [0, 1]
            ++ p_vars (fun v _ => if v = 0 then [7] else []) [(5, 10)] [0, 1] →
          v ∈ ([0, 1] : List Var))
      ∧ (∀ v, ¬ (v ∈ q_vars (fun v _ => if v = 0 then [7] else []) [(5, 10)] [0, 1]
          ∧ v ∈ p_vars (fun v _ => if v = 0 then [7] else []) [(5, 10)] [0, 1]))
      ∧ ((wake_sleep (fun _ => (0 : ℚ)) (fun _ _ => none)
          (fun v _ => if v = 0 then [7] else []) [(5, 10)] [] 1 "sleep" [] [0, 1] []).1
        = loss_p (fun _ => (0 : ℚ)) [(5, 10)] [] 1 "sleep" [] [])) :=
  ⟨by decide, wake_sleep_grads_partition (fun _ => (0 : ℚ)) (fun _ _ => none)
    (fun v _ => if v = 0 then [7] else []) [(5, 10)] [] 1 "sleep" [] [0, 1] [] (by decide)⟩

/-- C2: the returned loss_p equals the negation of the equal-weight
arithmetic mean of the n_samples per-sample p log-probability sums plus
the summed regularization penalty; the internal loss_q — the objective the
q-variable gradients are taken from — is the analogous expression over the
q log-probability sums. -/
theorem wake_sleep_loss_formula (L : LPTerm → ℚ) (g : ℚ → Var → Option ℚ)
    (descend : Var → List Var → List Var) (latent : List (Var × Var))
    (data : List (DataKey × DataVal)) (n : Nat) (phase : String)
    (scale : ScaleMap) (var_list : List Var) (regLosses : List ℚ)
    (_hn : 0 < n) :
    ((wake_sleep L g descend latent data n phase scale var_list regLosses).1
      = -(((List.range n).map
            (fun s => sampleVal L (pTermsSample latent data scale phase s))).sum / (n : ℚ))
        + regLosses.sum)
    ∧ (loss_q L latent data n phase scale regLosses
      = -(((List.range n).map
            (fun s => sampleVal L (qTermsSample latent data scale phase s))).sum / (n : ℚ))
        + regLosses.sum)
    ∧ ((wake_sleep L g descend latent data n phase scale var_list regLosses).2.map Prod.fst
      = (q_vars descend latent var_list).map
          (g (loss_q L latent data n phase scale regLosses))
        ++ (p_vars descend latent var_list).map
          (g (loss_p L latent data n phase scale regLosses))) := by
  refine ⟨?_, ?_, ?_⟩
  · show loss_p L latent data n phase scale regLosses = _
    unfold loss_p tfReduceMean p_log_prob reg_penalty
    rw [List.length_map, List.length_range]
  · unfold loss_q tfReduceMean q_log_prob reg_penalty
    rw [List.length_map, List.length_range]
  · simp only [wake_sleep]
    rw [List.map_append, map_fst_zip_map, map_fst_zip_map]

/-- Witness for C2 at a concrete input. -/
theorem wake_sleep_loss_formula_witness :
    0 < 1
    ∧ (((wake_sleep (fun _ => (0 : ℚ)) (fun _ _ => none) (fun _ _ => [])
          [(0, 10)] [] 1 "sleep" [] [0] [(1 : ℚ)]).1
        = -(((List.range 1).map
              (fun s => sampleVal (fun _ => (0 : ℚ)) (pTermsSample [(0, 10)] [] [] "sleep" s))).sum / ((1 : Nat) : ℚ))
          + [(1 : ℚ)].sum)
      ∧ (loss_q (fun _ => (0 : ℚ)) [(0, 10)] [] 1 "sleep" [] [(1 : ℚ)]
        = -(((List.range 1).map
              (fun s => sampleVal (fun _ => (0 : ℚ)) (qTermsSample [(0, 10)] [] [] "sleep" s))).sum / ((1 : Nat) : ℚ))
          + [(1 : ℚ)].sum)
      ∧ ((wake_sleep (fun _ => (0 : ℚ)) (fun _ _ => none) (fun _ _ => [])
          [(0, 10)] [] 1 "sleep" [] [0] [(1 : ℚ)]).2.map Prod.fst
        = (q_vars (fun _ _ => []) [(0, 10)] [0]).map
            ((fun _ _ => none) (loss_q (fun _ => (0 : ℚ)) [(0, 10)] [] 1 "sleep" [] [(1 : ℚ)]))
          ++ (p_vars (fun _ _ => []) [(0, 10)] [0]).map
            ((fun _ _ => none) (loss_p (fun _ => (0 : ℚ)) [(0, 10)] [] 1 "sleep" [] [(1 : ℚ)])))) :=
  ⟨by decide, wake_sleep_loss_formula (fun _ => (0 : ℚ)) (fun _ _ => none) (fun _ _ => [])
    [(0, 10)] [] 1 "sleep" [] [0] [(1 : ℚ)] (by decide)⟩

/-- C3 counterexample: with latent_vars = [(0, 10), (1, 11)] and a scale
map sending key 0 to 2 and key 1 to 3, the sleep sub-phase term for
approximation 10 (whose own latent key is 0, multiplier 2) is scaled by 3,
the multiplier of the leftover last loop key, so the own-key
scaling stated by the claim fails. -/
theorem sleep_scale_counterexample :
    ¬ (∀ t ∈ qTermsSample [(0, 10), (1, 11)] [] [(0, 2), (1, 3)] "sleep" 0,
        t.dist = 10 → t.scale = 2) := by decide

/-- C3 amended: in the sleep sub-phase, for every pair (z, qz) of
latent_vars the log-density of a fresh p-sample-scoped copy of qz
conditioned on p_dict_swap, evaluated at the prior-sampled value of z with
gradient flow to the value blocked, is accumulated into the q
log-probability sum — but scaled by the scale multiplier of the LAST
latent key of the iteration (the leftover loop variable, default 1.0),
not by the own key of each variable. -/
theorem sleep_phase_terms (latent : List (Var × Var))
    (data : List (DataKey × DataVal)) (scale : ScaleMap) (s : Nat)
    (zqzL : Var × Var) (hlast : latent.getLast? = some zqzL)
    (hnd : (latent.map Prod.snd).Nodup) :
    qTermsSample latent data scale "sleep" s
      = latent.map (fun zqz =>
          ⟨scaleGet scale zqzL.1, zqz.2, Scope.pSample s,
           pDictSwap latent s (dictSwap data s),
           some (Val.rvValue zqz.1 (Scope.pSample s)), true⟩) := by
  unfold qTermsSample
  rw [if_pos rfl, qLoopAux_terms_sleep scale s latent (dictSwap data s),
      List.nil_append]
  unfold sleepTerms
  rw [hlast]
  apply List.map_congr_left
  intro zqz hmem
  rw [dget_pDictSwap s zqz.1 zqz.2 latent (dictSwap data s) hnd hmem]

/-- Witness for the amended C3 at a concrete input. -/
theorem sleep_phase_terms_witness :
    ([((0 : Var), (10 : Var)), (1, 11)].getLast? = some ((1 : Var), (11 : Var)))
    ∧ (([((0 : Var), (10 : Var)), (1, 11)].map Prod.snd).Nodup)
    ∧ qTermsSample [(0, 10), (1, 11)] [] [(0, 2), (1, 3)] "sleep" 0
      = [((0 : Var), (10 : Var)), (1, 11)].map (fun zqz =>
          ⟨scaleGet [(0, 2), (1, 3)] ((1 : Var), (11 : Var)).1, zqz.2, Scope.pSample 0,
           pDictSwap [(0, 10), (1, 11)] 0 (dictSwap [] 0),
           some (Val.rvValue zqz.1 (Scope.pSample 0)), true⟩) :=
  ⟨by decide, by decide,
    sleep_phase_terms [(0, 10), (1, 11)] [] [(0, 2), (1, 3)] 0 (1, 11)
      (by decide) (by decide)⟩

/-- C4: with phase_q = "wake" the q accumulation consists exactly of the
q-sample sub-phase terms — for each (z, qz) a fresh unconditioned
q-sample-scoped copy of qz evaluated at its own sampled value with the
gradient to the value blocked — every copy made during the sample lives in
the q-sample scope (no prior-sample draw occurs and nothing is keyed by
the approximation variables), and the returned pairs still follow the
q_vars/p_vars partition of var_list. -/
theorem wake_phase_behavior (L : LPTerm → ℚ) (g : ℚ → Var → Option ℚ)
    (descend : Var → List Var → List Var) (latent : List (Var × Var))
    (data : List (DataKey × DataVal)) (n : Nat) (scale : ScaleMap)
    (var_list : List Var) (regLosses : List ℚ) (s : Nat) :
    (qTermsSample latent data scale "wake" s
      = latent.map (fun zqz =>
          ⟨scaleGet scale zqz.1, zqz.2, Scope.qSample s, [],
           some (Val.rvValue zqz.2 (Scope.qSample s)), true⟩))
    ∧ (∀ c ∈ copiesSample latent data scale "wake" s, c.scope = Scope.qSample s)
    ∧ ((wake_sleep L g descend latent data n "wake" scale var_list regLosses).2.map Prod.snd
      = q_vars descend latent var_list ++ p_vars descend latent var_list) := by
  refine ⟨?_, ?_, ?_⟩
  · unfold qTermsSample
    rw [if_neg (by decide : ¬ ("wake" : String) = "sleep")]
    exact qLoopAux_terms_not_sleep scale "wake" s (by decide) latent _
  · intro c hc
    simp only [copiesSample] at hc
    rw [if_neg (by decide : ¬ ("wake" : String) = "sleep")] at hc
    simp only [List.append_nil, List.mem_append, List.mem_filterMap,
      List.mem_map] at hc
    rcases hc with ((⟨⟨kk, vv⟩, _, he⟩ | ⟨zqz, _, he⟩) | ⟨zqz, _, he⟩) | ⟨⟨kk, vv⟩, _, he⟩
    · cases kk <;> cases vv <;> simp at he
      all_goals (subst he; rfl)
    · subst he
      rfl
    · subst he
      rfl
    · cases kk <;> cases vv <;> simp at he
      all_goals (subst he; rfl)
  · simp only [wake_sleep]
    rw [List.map_append, map_snd_zip_map, map_snd_zip_map]

/-- Witness for C4 at a concrete input. -/
theorem wake_phase_behavior_witness :
    (qTermsSample [((0 : Var), (10 : Var))] [] [] "wake" 0
      = [((0 : Var), (10 : Var))].map (fun zqz =>
          ⟨scaleGet [] zqz.1, zqz.2, Scope.qSample 0, [],
           some (Val.rvValue zqz.2 (Scope.qSample 0)), true⟩))
    ∧ (∀ c ∈ copiesSample [((0 : Var), (10 : Var))] [] [] "wake" 0,
        c.scope = Scope.qSample 0)
    ∧ ((wake_sleep (fun _ => (0 : ℚ)) (fun _ _ => none) (fun _ _ => [])
        [((0 : Var), (10 : Var))] [] 1 "wake" [] [0] []).2.map Prod.snd
      = q_vars (fun _ _ => []) [((0 : Var), (10 : Var))] [0]
        ++ p_vars (fun _ _ => []) [((0 : Var), (10 : Var))] [0]) :=
  wake_phase_behavior (fun _ => (0 : ℚ)) (fun _ _ => none) (fun _ _ => [])
    [((0 : Var), (10 : Var))] [] 1 [] [0] [] 0

/-- C9: wake_sleep never validates phase_q: for every phase string other
than "sleep" the call returns normally and behaves exactly as with
phase_q = "wake" — the same loss and (gradient, variable) pairs, the same
accumulated q terms, and the same copy events. -/
theorem wake_sleep_phase_unvalidated (L : LPTerm → ℚ) (g : ℚ → Var → Option ℚ)
    (descend : Var → List Var → List Var) (latent : List (Var × Var))
    (data : List (DataKey × DataVal)) (n : Nat) (phase : String)
    (scale : ScaleMap) (var_list : List Var) (regLosses : List ℚ) (s : Nat)
    (h : phase ≠ "sleep") :
    (wake_sleep L g descend latent data n phase scale var_list regLosses
      = wake_sleep L g descend latent data n "wake" scale var_list regLosses)
    ∧ (qTermsSample latent data scale phase s
      = qTermsSample latent data scale "wake" s)
    ∧ (copiesSample latent data scale phase s
      = copiesSample latent data scale "wake" s) := by
  refine ⟨?_, qTermsSample_phase latent data scale phase s h,
    copiesSample_phase latent data scale phase s h⟩
  unfold wake_sleep
  rw [loss_p_phase L latent data n phase scale regLosses h,
      loss_q_phase L latent data n phase scale regLosses h]

/-- Witness for C9 at a concrete input (an arbitrary unexpected phase
string). -/
theorem wake_sleep_phase_unvalidated_witness :
    ("awake" ≠ "sleep")
    ∧ ((wake_sleep (fun _ => (0 : ℚ)) (fun _ _ => none) (fun _ _ => [])
          [((0 : Var), (10 : Var))] [] 1 "awake" [] [0] []
        = wake_sleep (fun _ => (0 : ℚ)) (fun _ _ => none) (fun _ _ => [])
          [((0 : Var), (10 : Var))] [] 1 "wake" [] [0] [])
      ∧ (qTermsSample [((0 : Var), (10 : Var))] [] [] "awake" 0
        = qTermsSample [((0 : Var), (10 : Var))] [] [] "wake" 0)
      ∧ (copiesSample [((0 : Var), (10 : Var))] [] [] "awake" 0
        = copiesSample [((0 : Var), (10 : Var))] [] [] "wake" 0)) :=
  ⟨by decide, wake_sleep_phase_unvalidated (fun _ => (0 : ℚ)) (fun _ _ => none)
    (fun _ _ => []) [((0 : Var), (10 : Var))] [] 1 "awake" [] [0] [] 0 (by decide)⟩

end Edward
